import Mathlib

/-!
Shallow embedding of the wage-computation and statistics-aggregation core of
the `downtownbackend` repository (FastAPI + MongoDB back office).

Strings are modelled as lists of characters; floating-point quantities are
modelled as rationals, so every arithmetic identity proved here is exact.
Python string operations used by the code (`.lower()`, `.strip()`, substring
membership, lexicographic comparison) are embedded as executable functions on
`List Char` restricted to the ASCII range that the data actually inhabits.
-/

namespace Downtown

/-- Strings of the embedded program: lists of characters. -/
abbrev Str := List Char

/-- ASCII whitespace, as stripped by Python's `str.strip()` on ASCII data:
space, tab, newline, carriage return, vertical tab, form feed. -/
def wsChar (c : Char) : Bool :=
  c.toNat = 32 || c.toNat = 9 || c.toNat = 10 || c.toNat = 13 ||
  c.toNat = 11 || c.toNat = 12

/-- ASCII lower-casing of one character, as done by Python's `str.lower()`
on the basic-latin letters that labour-type labels consist of. -/
def lowerChar (c : Char) : Char :=
  if c.toNat ≥ 65 ∧ c.toNat ≤ 90 then Char.ofNat (c.toNat + 32) else c

/-- Python `s.lower()`, on the ASCII data domain. -/
def lowerStr (s : Str) : Str := s.map lowerChar

/-- Python `s.strip()`: drop whitespace from the front, then from the back. -/
def pyStrip (s : Str) : Str :=
  ((s.dropWhile wsChar).reverse.dropWhile wsChar).reverse

/-- Python's substring test `needle in haystack`. -/
def hasSub (n h : Str) : Bool := decide (n <:+: h)

/-- Python's lexicographic string comparison `a <= b` (by code point). -/
def strLeB : Str → Str → Bool
  | [], _ => true
  | _ :: _, [] => false
  | a :: as, b :: bs => if a < b then true else if b < a then false else strLeB as bs

theorem hasSub_iff (n h : Str) : hasSub n h = true ↔ n <:+: h := by
  simp [hasSub]

/-- Lower-casing never turns a character into whitespace or back. -/
theorem wsChar_lowerChar (c : Char) : wsChar (lowerChar c) = wsChar c := by
  unfold lowerChar
  split
  · rename_i h
    have hv : (Char.ofNat (c.toNat + 32)).toNat = c.toNat + 32 := by
      have hvalid : (c.toNat + 32).isValidChar := by
        left
        omega
      unfold Char.ofNat
      rw [dif_pos hvalid]
      simp [Char.ofNatAux, Char.toNat, UInt32.toNat, BitVec.toNat_ofNatLt]
    have hL : wsChar (Char.ofNat (c.toNat + 32)) = false := by
      simp only [wsChar, hv, Bool.or_eq_false_iff, decide_eq_false_iff_not]
      omega
    have hR : wsChar c = false := by
      simp only [wsChar, Bool.or_eq_false_iff, decide_eq_false_iff_not]
      omega
    rw [hL, hR]
  · rfl

/-- Dropping leading whitespace via `dropWhile wsChar` commutes with ASCII lower-casing. -/
theorem dropWhile_ws_map_lower (l : Str) :
    (l.map lowerChar).dropWhile wsChar = (l.dropWhile wsChar).map lowerChar := by
  have hfun : (wsChar ∘ lowerChar) = wsChar := funext fun c => wsChar_lowerChar c
  rw [List.dropWhile_map, hfun]

/-- Stripping commutes with ASCII lower-casing. -/
theorem pyStrip_lowerStr (l : Str) : pyStrip (lowerStr l) = lowerStr (pyStrip l) := by
  simp only [pyStrip, lowerStr]
  rw [dropWhile_ws_map_lower, ← List.map_reverse, dropWhile_ws_map_lower,
    ← List.map_reverse]

/-- A needle whose first character is not whitespace occurs in
`l.dropWhile wsChar` exactly when it occurs in `l`. -/
theorem sub_dropWhile_ws {c : Char} (hc : wsChar c = false) (n l : Str) :
    (c :: n) <:+: l.dropWhile wsChar ↔ (c :: n) <:+: l := by
  constructor
  · intro h
    exact h.trans (List.dropWhile_suffix wsChar).isInfix
  · intro h
    induction l with
    | nil => simp at h
    | cons a t ih =>
      by_cases ha : wsChar a = true
      · rw [List.dropWhile_cons_of_pos ha]
        rcases List.infix_cons_iff.mp h with hpre | hinf
        · rcases List.cons_prefix_cons.mp hpre with ⟨rfl, -⟩
          rw [hc] at ha
          exact absurd ha (by simp)
        · exact ih hinf
      · rw [List.dropWhile_cons_of_neg ha]
        exact h

/-- A needle whose first and last characters are not whitespace occurs in the
stripped string exactly when it occurs in the original string. -/
theorem sub_pyStrip {c d : Char} (hc : wsChar c = false) (hd : wsChar d = false)
    (mid l : Str) :
    (c :: (mid ++ [d])) <:+: pyStrip l ↔ (c :: (mid ++ [d])) <:+: l := by
  have hrev : (c :: (mid ++ [d])).reverse = d :: (mid.reverse ++ [c]) := by
    simp
  unfold pyStrip
  constructor
  · intro h
    have h1 : (c :: (mid ++ [d])).reverse <:+:
        (l.dropWhile wsChar).reverse.dropWhile wsChar := by
      have := List.reverse_infix.mpr h
      rwa [List.reverse_reverse] at this
    rw [hrev] at h1
    have h2 := (sub_dropWhile_ws hd _ _).mp h1
    rw [← hrev] at h2
    have h3 : c :: (mid ++ [d]) <:+: l.dropWhile wsChar :=
      List.reverse_infix.mp (by simpa using h2)
    exact (sub_dropWhile_ws hc _ _).mp h3
  · intro h
    have h1 : c :: (mid ++ [d]) <:+: l.dropWhile wsChar :=
      (sub_dropWhile_ws hc _ _).mpr h
    have h2 : (c :: (mid ++ [d])).reverse <:+: (l.dropWhile wsChar).reverse :=
      List.reverse_infix.mpr h1
    rw [hrev] at h2
    have h3 := (sub_dropWhile_ws hd _ _).mpr h2
    rw [← hrev] at h3
    have := List.reverse_infix.mpr h3
    rwa [List.reverse_reverse] at this

/-- Boolean form of `sub_pyStrip`. -/
theorem hasSub_pyStrip {c d : Char} (hc : wsChar c = false) (hd : wsChar d = false)
    (mid l : Str) :
    hasSub (c :: (mid ++ [d])) (pyStrip l) = hasSub (c :: (mid ++ [d])) l := by
  simp only [hasSub, decide_eq_decide]
  exact sub_pyStrip hc hd mid l

/-! ### Labour data model (src/routes/labour_routes.py) -/

/-- Per-labour-type prices of the singleton price document
(`price_doc["labour_prices"]`); absent keys default to 0 at lookup, so the
structure stores the four looked-up rates directly. -/
structure LabourPrices where
  recycling : ℚ
  blending : ℚ
  crushingWaste : ℚ
  crushingSack : ℚ
deriving DecidableEq

/-- An embedded staff value on a labour record or in the roster: the code
reads `staff.get("id") or staff.get("_id")` and `staff.get("name", "")`. -/
structure StaffDoc where
  idField : Option Str
  underId : Option Str
  name : Str
deriving DecidableEq

/-- Python truthiness for an optional string: `None` and `""` are falsy. -/
def truthyStr : Option Str → Option Str
  | none => none
  | some s => if s = [] then none else some s

/-- The lookup `staff.get("id") or staff.get("_id")` followed by the
`if not staff_id: continue` guard: the usable identifier of an embedded
staff value, if any. -/
def staffKey (st : StaffDoc) : Option Str :=
  match truthyStr st.idField with
  | some s => some s
  | none => truthyStr st.underId

/-- A stored labour record. -/
structure LabourRecord where
  staffs : List StaffDoc
  kg : ℚ
  date : Str
  labourType : Str
  amount : ℚ
  memberShare : ℚ
deriving DecidableEq

/-- A labour-record creation request: `amountOpt` and `memberShareOpt` are
`none` when the client left the field unset (`model_dump(exclude_unset=True)`
drops unset fields from the inserted document). -/
structure LabourRequest where
  staffs : List StaffDoc
  kg : ℚ
  date : Str
  labourType : Str
  amountOpt : Option ℚ
  memberShareOpt : Option ℚ

def recyclingN : Str := "recycling".toList

def blendingN : Str := "blending".toList

def crushingWasteN : Str := "crushing waste".toList

def crushingSackN : Str := "crushing sack".toList

/-- The allocator's price lookup in `create_labour_record`: lower-case the
labour type, then test substrings in the order recycling, blending,
crushing waste, crushing sack; first match wins, no match gives rate 0. -/
def ratePerKgCreate (lp : LabourPrices) (labourType : Str) : ℚ :=
  let s := lowerStr labourType
  if hasSub recyclingN s then lp.recycling
  else if hasSub blendingN s then lp.blending
  else if hasSub crushingWasteN s then lp.crushingWaste
  else if hasSub crushingSackN s then lp.crushingSack
  else 0

/-- The four fixed per-type output fields of `get_wages`. -/
inductive LabourField
  | recyclingF
  | blendingF
  | crushingWasteF
  | crushingSackF
deriving DecidableEq

/-- The wage aggregator's classification in `get_wages`: strip and lower-case
the labour type, then test substrings in the order recycling, crushing waste,
crushing sack, blending; returns the price and the matched output field. -/
def wagesClassify (lp : LabourPrices) (labourType : Str) : ℚ × Option LabourField :=
  let s := lowerStr (pyStrip labourType)
  if hasSub recyclingN s then (lp.recycling, some .recyclingF)
  else if hasSub crushingWasteN s then (lp.crushingWaste, some .crushingWasteF)
  else if hasSub crushingSackN s then (lp.crushingSack, some .crushingSackF)
  else if hasSub blendingN s then (lp.blending, some .blendingF)
  else (0, none)

/-- Endpoint `create_labour_record` (src/routes/labour_routes.py): when `amount` or
`memberShare` is unset the allocator computes them from the price document,
failing when no price document exists; otherwise the supplied values are
stored unchanged. -/
def createLabourRecord (priceDoc : Option LabourPrices) (req : LabourRequest) :
    Except String LabourRecord :=
  if req.amountOpt.isSome ∧ req.memberShareOpt.isSome then
    .ok { staffs := req.staffs, kg := req.kg, date := req.date,
          labourType := req.labourType,
          amount := req.amountOpt.getD 0, memberShare := req.memberShareOpt.getD 0 }
  else
    match priceDoc with
    | none => .error "Labour prices not found"
    | some lp =>
      let pricePerKg := ratePerKgCreate lp req.labourType
      let amount := pricePerKg * req.kg
      let numStaff := req.staffs.length
      let memberShare := if numStaff > 0 then amount / (numStaff : ℚ) else 0
      .ok { staffs := req.staffs, kg := req.kg, date := req.date,
            labourType := req.labourType, amount := amount, memberShare := memberShare }

/-- Accumulator entry of `get_wages`, before `totalAmountDue` is added. -/
structure WageAcc where
  id : Str
  name : Str
  totalKg : ℚ
  amountRecycling : ℚ
  amountBlending : ℚ
  amountCrushingWaste : ℚ
  amountCrushingSack : ℚ
deriving DecidableEq

/-- One row of the `get_wages` response. -/
structure StaffLabourSummary where
  id : Str
  name : Str
  totalKg : ℚ
  amountRecycling : ℚ
  amountBlending : ℚ
  amountCrushingWaste : ℚ
  amountCrushingSack : ℚ
  totalAmountDue : ℚ
deriving DecidableEq

/-- Mutation of one accumulator entry for one record:
`totalKg += kg_per_staff` and, when a labour field matched,
`entry[labour_field] += amount`. -/
def bumpAcc (e : WageAcc) (kgPerStaff : ℚ) (field : Option LabourField)
    (amount : ℚ) : WageAcc :=
  let e1 := { e with totalKg := e.totalKg + kgPerStaff }
  match field with
  | none => e1
  | some .recyclingF => { e1 with amountRecycling := e1.amountRecycling + amount }
  | some .blendingF => { e1 with amountBlending := e1.amountBlending + amount }
  | some .crushingWasteF =>
      { e1 with amountCrushingWaste := e1.amountCrushingWaste + amount }
  | some .crushingSackF =>
      { e1 with amountCrushingSack := e1.amountCrushingSack + amount }

/-- Freshly initialised accumulator entry for a staff id. -/
def freshAcc (sid nm : Str) : WageAcc :=
  { id := sid, name := nm, totalKg := 0, amountRecycling := 0,
    amountBlending := 0, amountCrushingWaste := 0, amountCrushingSack := 0 }

/-- Insertion-ordered dictionary update keyed by staff id, as Python's
`staff_summary` dict: create the entry with defaults on first sight, then
mutate it in place. -/
def updateWageAcc (acc : List WageAcc) (sid nm : Str) (kgPerStaff : ℚ)
    (field : Option LabourField) (amount : ℚ) : List WageAcc :=
  if acc.any fun e => decide (e.id = sid) then
    acc.map fun e => if e.id = sid then bumpAcc e kgPerStaff field amount else e
  else
    acc ++ [bumpAcc (freshAcc sid nm) kgPerStaff field amount]

/-- Processing of one labour record inside the `get_wages` fold: a record
with no attached staff is skipped entirely. -/
def wagesStep (lp : LabourPrices) (acc : List WageAcc) (r : LabourRecord) :
    List WageAcc :=
  let numStaff := r.staffs.length
  if numStaff = 0 then acc
  else
    let kgPerStaff := r.kg / (numStaff : ℚ)
    let pf := wagesClassify lp r.labourType
    let amount := kgPerStaff * pf.1
    r.staffs.foldl
      (fun acc2 st =>
        match staffKey st with
        | none => acc2
        | some sid => updateWageAcc acc2 sid st.name kgPerStaff pf.2 amount)
      acc

/-- Endpoint `get_wages` (src/routes/labour_routes.py): fails when no price document
exists, otherwise folds all labour records into per-staff summaries and adds
`totalAmountDue` as the sum of the four per-type amounts. -/
def getWages (priceDoc : Option LabourPrices) (records : List LabourRecord) :
    Except String (List StaffLabourSummary) :=
  match priceDoc with
  | none => .error "Labour prices not found"
  | some lp =>
    .ok ((records.foldl (wagesStep lp) []).map fun e =>
      { id := e.id, name := e.name, totalKg := e.totalKg,
        amountRecycling := e.amountRecycling, amountBlending := e.amountBlending,
        amountCrushingWaste := e.amountCrushingWaste,
        amountCrushingSack := e.amountCrushingSack,
        totalAmountDue := e.amountRecycling + e.amountBlending +
          e.amountCrushingWaste + e.amountCrushingSack })

/-- Accumulated wage data per staff id in `get_monthly_wages`. -/
structure WageData where
  totalWage : ℚ
  breakdown : List (Str × ℚ)
deriving DecidableEq

/-- One row of the `get_monthly_wages` response. -/
structure StaffWageSummary where
  id : Str
  name : Str
  totalWage : ℚ
  breakdown : List (Str × ℚ)
deriving DecidableEq

/-- Insertion-ordered dictionary increment, as Python's
`breakdown[labour_type] = breakdown.get(labour_type, 0.0) + member_share`. -/
def bumpAssoc (l : List (Str × ℚ)) (k : Str) (add : ℚ) : List (Str × ℚ) :=
  if l.any fun p => decide (p.1 = k) then
    l.map fun p => if p.1 = k then (p.1, p.2 + add) else p
  else l ++ [(k, add)]

/-- First-match lookup in an insertion-ordered association list. -/
def findData : List (Str × WageData) → Str → Option WageData
  | [], _ => none
  | p :: t, k => if p.1 = k then some p.2 else findData t k

/-- Processing of one labour record inside the `get_monthly_wages`
accumulation loop. -/
def monthlyStep (acc : List (Str × WageData)) (r : LabourRecord) :
    List (Str × WageData) :=
  let ms := r.memberShare
  let lt := lowerStr (pyStrip r.labourType)
  r.staffs.foldl
    (fun a st =>
      match staffKey st with
      | none => a
      | some sid =>
        if a.any fun p => decide (p.1 = sid) then
          a.map fun p =>
            if p.1 = sid then
              (p.1, { totalWage := p.2.totalWage + ms,
                      breakdown := bumpAssoc p.2.breakdown lt ms })
            else p
        else
          a ++ [(sid, { totalWage := ms, breakdown := bumpAssoc [] lt ms })])
    acc

/-- The accumulation phase of `get_monthly_wages` over the records of the
month window, the window given by its inclusive date-string bounds. -/
def accumulateWages (records : List LabourRecord) (firstDay lastDay : Str) :
    List (Str × WageData) :=
  (records.filter fun r =>
    strLeB firstDay r.date && strLeB r.date lastDay).foldl monthlyStep []

/-- Endpoint `get_monthly_wages` (src/routes/labour_routes.py): accumulate member
shares of the month's records per staff id, then emit one row per roster
staff document with a usable id, defaulting to zero wage and empty
breakdown when the id has no accumulated wages. -/
def getMonthlyWages (records : List LabourRecord) (roster : List StaffDoc)
    (firstDay lastDay : Str) : List StaffWageSummary :=
  let acc := accumulateWages records firstDay lastDay
  roster.filterMap fun st =>
    (staffKey st).map fun sid =>
      match findData acc sid with
      | some wd =>
          { id := sid, name := st.name, totalWage := wd.totalWage,
            breakdown := wd.breakdown }
      | none => { id := sid, name := st.name, totalWage := 0, breakdown := [] }

/-! ### Invoice and statistics data model (src/routes/invoice_routes.py,
src/routes/stats_routes.py) -/

/-- An invoice document, with the fields the endpoints read. -/
structure Invoice where
  customerName : Str
  productType : Str
  processType : List Str
  kgIn : ℚ
  kgOut : ℚ
  amount : ℚ
  status : Str
  recycler : Option Str
  date : Str
deriving DecidableEq

/-- Endpoint `create_invoice` (src/routes/invoice_routes.py): the status is overridden
to "in progress" before the document is stored; all other fields are kept. -/
def createInvoice (inv : Invoice) : Invoice :=
  { inv with status := "in progress".toList }

/-- A sales document, with the fields `get_monthly_sales` reads. -/
structure Sale where
  date : Str
  amount : ℚ
deriving DecidableEq

/-- The two-digit month keys, in calendar order. -/
def monthKeys : List Str :=
  ["01", "02", "03", "04", "05", "06", "07", "08", "09", "10", "11", "12"].map
    String.toList

/-- The `month_map`: two-digit month key to abbreviated month name. -/
def monthName (m : Str) : Str :=
  if m = "01".toList then "Jan".toList
  else if m = "02".toList then "Feb".toList
  else if m = "03".toList then "Mar".toList
  else if m = "04".toList then "Apr".toList
  else if m = "05".toList then "May".toList
  else if m = "06".toList then "Jun".toList
  else if m = "07".toList then "Jul".toList
  else if m = "08".toList then "Aug".toList
  else if m = "09".toList then "Sep".toList
  else if m = "10".toList then "Oct".toList
  else if m = "11".toList then "Nov".toList
  else if m = "12".toList then "Dec".toList
  else []

/-- The 12 month labels emitted by every monthly series. -/
def monthLabels : List Str := monthKeys.map monthName

/-- Pipeline stage `$substr: ["$date", 5, 2]`: the month part of a "YYYY-MM-DD" string. -/
def monthOf (date : Str) : Str := (date.drop 5).take 2

/-- Match stage `date $regex ^YYYY`: the current-year filter. -/
def inYear (year : Str) (date : Str) : Bool := year.isPrefixOf date

/-- Endpoint `get_monthly_invoice_kg` (src/routes/stats_routes.py): group the current
year's invoices by the month substring of `date`, sum `kgIn` per month, and
emit all 12 months in calendar order with 0 where a month has no data. -/
def monthlyKg (year : Str) (invoices : List Invoice) : List Str × List ℚ :=
  (monthLabels,
   monthKeys.map fun m =>
     ((invoices.filter fun i =>
         inYear year i.date && decide (monthOf i.date = m)).map Invoice.kgIn).sum)

/-- Endpoint `get_monthly_sales` (src/routes/stats_routes.py): as `monthlyKg` but over
the sales collection, summing `amount`. -/
def monthlySales (year : Str) (sales : List Sale) : List Str × List ℚ :=
  (monthLabels,
   monthKeys.map fun m =>
     ((sales.filter fun s =>
         inYear year s.date && decide (monthOf s.date = m)).map Sale.amount).sum)

def aLit : Str := "a".toList

def bLit : Str := "b".toList

/-- Endpoint `get_recycler_monthly_comparison` (src/routes/stats_routes.py): the
`$match` stage keeps exactly the invoices whose `recycler` equals `"a"` or
`"b"`; the pivot loop then sums `kgIn` per calendar month into the series
whose lower-cased recycler tag matches ("a" first, then "b"), with no year
or status restriction anywhere in the pipeline. -/
def recyclerComparison (invoices : List Invoice) : List Str × List ℚ × List ℚ :=
  let matched := invoices.filter fun i =>
    decide (i.recycler = some aLit) || decide (i.recycler = some bLit)
  (monthLabels,
   monthKeys.map fun m =>
     ((matched.filter fun i =>
         decide (monthOf i.date = m) &&
         decide (i.recycler.map lowerStr = some aLit)).map Invoice.kgIn).sum,
   monthKeys.map fun m =>
     ((matched.filter fun i =>
         decide (monthOf i.date = m) &&
         decide (i.recycler.map lowerStr ≠ some aLit) &&
         decide (i.recycler.map lowerStr = some bLit)).map Invoice.kgIn).sum)

instance strLeBDecidableRel : DecidableRel fun a b : Str => strLeB a b = true :=
  fun a b => Bool.decEq (strLeB a b) true

/-- Stage `$setUnion` of the pipeline: the distinct process codes in ascending
order (MongoDB set union yields the deduplicated elements sorted). -/
def sortDedup (l : List Str) : List Str :=
  List.insertionSort (fun a b => strLeB a b = true) l.dedup

/-- Stage `$reduce` joining with "-" from an empty initial value. -/
def reduceDash (l : List Str) : Str :=
  l.foldl (fun v t => if v = [] then t else v ++ '-' :: t) []

/-- The canonical process-type key of the pipeline before remapping:
hyphen-join of the sorted distinct codes. -/
def canonKey (pt : List Str) : Str := reduceDash (sortDedup pt)

/-- The `expected_mapping`: remap the alphabetically sorted key to the fixed
display order, leaving unknown keys unchanged. -/
def remapKey (k : Str) : Str :=
  if k = "B-C".toList then "C-B".toList
  else if k = "B-R".toList then "R-B".toList
  else if k = "C-R".toList then "R-C".toList
  else if k = "B-C-R".toList then "R-C-B".toList
  else k

/-- The fixed display labels of `get_process_type_count`. -/
def fixedLabels : List Str :=
  ["R", "C", "B", "R-C", "R-B", "C-B", "R-C-B"].map String.toList

def completedStr : Str := "completed".toList

/-- Endpoint `get_process_type_count` (src/routes/stats_routes.py): count completed
invoices per remapped canonical process-type key, and emit the 7 fixed
labels in display order with 0 where no invoice matches. -/
def processTypeCounts (invoices : List Invoice) : List Str × List ℕ :=
  let completed := invoices.filter fun i => decide (i.status = completedStr)
  (fixedLabels,
   fixedLabels.map fun lab =>
     (completed.filter fun i =>
       decide (remapKey (canonKey i.processType) = lab)).length)

/-! ### Concrete fixtures used by witnesses -/

/-- The example price table of the specification. -/
def lpEx : LabourPrices :=
  { recycling := 100, blending := 50, crushingWaste := 20, crushingSack := 10 }

def staffA : StaffDoc :=
  { idField := some "A".toList, underId := none, name := "Alice".toList }

def staffB : StaffDoc :=
  { idField := some "B".toList, underId := none, name := "Bob".toList }

/-- The example labour request of the specification: kg 10, labour recycling,
two staff, amount and member share left for the allocator. -/
def reqEx : LabourRequest :=
  { staffs := [staffA, staffB], kg := 10, date := "2026-10-05".toList,
    labourType := "labour recycling".toList,
    amountOpt := none, memberShareOpt := none }

/-! ### Claims about the labour allocator and wage aggregation -/

/-- C1: for every labour record with a non-empty staffs list whose amount and
member share are computed by the allocator, `amount = rate(labourType) * kg`,
`memberShare = amount / len(staffs)`, and therefore
`memberShare * len(staffs) = amount` — exactly, in the rational model of the
code's floating-point arithmetic. -/
theorem claim_C1_allocation_conservation (lp : LabourPrices) (req : LabourRequest)
    (hunset : req.amountOpt = none ∨ req.memberShareOpt = none)
    (hstaff : req.staffs ≠ []) :
    ∃ rec : LabourRecord,
      createLabourRecord (some lp) req = .ok rec ∧
      rec.amount = ratePerKgCreate lp req.labourType * req.kg ∧
      rec.memberShare = rec.amount / (req.staffs.length : ℚ) ∧
      rec.memberShare * (req.staffs.length : ℚ) = rec.amount := by
  have hcond : ¬ (req.amountOpt.isSome ∧ req.memberShareOpt.isSome) := by
    rcases hunset with h | h <;> simp [h]
  have hlen : 0 < req.staffs.length := List.length_pos.mpr hstaff
  have hlenQ : (req.staffs.length : ℚ) ≠ 0 := by
    exact_mod_cast Nat.pos_iff_ne_zero.mp hlen
  refine ⟨{ staffs := req.staffs, kg := req.kg, date := req.date,
            labourType := req.labourType,
            amount := ratePerKgCreate lp req.labourType * req.kg,
            memberShare :=
              ratePerKgCreate lp req.labourType * req.kg /
                (req.staffs.length : ℚ) }, ?_, rfl, rfl, ?_⟩
  · simp [createLabourRecord, hcond, hlen]
  · exact div_mul_cancel₀ _ hlenQ

/-- Witness for C1, at the specification's worked example. -/
theorem claim_C1_witness :
    ∃ rec : LabourRecord,
      createLabourRecord (some lpEx) reqEx = .ok rec ∧
      rec.amount = ratePerKgCreate lpEx reqEx.labourType * reqEx.kg ∧
      rec.memberShare = rec.amount / (reqEx.staffs.length : ℚ) ∧
      rec.memberShare * (reqEx.staffs.length : ℚ) = rec.amount :=
  claim_C1_allocation_conservation lpEx reqEx (Or.inl rfl) (by decide)

/-- C6: neither allocation nor wage aggregation divides by zero: a record
with an empty staffs list is allocated memberShare 0, and `get_wages` skips
such a record entirely, leaving the aggregation untouched. -/
theorem claim_C6_zero_staff_safety :
    (∀ (lp : LabourPrices) (req : LabourRequest),
       req.staffs = [] →
       (req.amountOpt = none ∨ req.memberShareOpt = none) →
       ∃ rec : LabourRecord,
         createLabourRecord (some lp) req = .ok rec ∧ rec.memberShare = 0) ∧
    (∀ (lp : LabourPrices) (pre post : List LabourRecord) (r : LabourRecord),
       r.staffs = [] →
       getWages (some lp) (pre ++ r :: post) = getWages (some lp) (pre ++ post)) := by
  constructor
  · intro lp req hempty hunset
    have hcond : ¬ (req.amountOpt.isSome ∧ req.memberShareOpt.isSome) := by
      rcases hunset with h | h <;> simp [h]
    refine ⟨{ staffs := req.staffs, kg := req.kg, date := req.date,
              labourType := req.labourType,
              amount := ratePerKgCreate lp req.labourType * req.kg,
              memberShare := 0 }, ?_, rfl⟩
    simp [createLabourRecord, hcond, hempty]
  · intro lp pre post r hempty
    have hstep : ∀ acc, wagesStep lp acc r = acc := fun acc => by
      simp [wagesStep, hempty]
    simp [getWages, List.foldl_append, hstep]

/-- Witness for C6 at concrete inputs: an empty-staff request allocates
member share 0, and an empty-staff record does not change `get_wages`. -/
theorem claim_C6_witness :
    (∃ rec : LabourRecord,
       createLabourRecord (some lpEx)
         { staffs := [], kg := 7, date := "2026-10-05".toList,
           labourType := "labour recycling".toList,
           amountOpt := none, memberShareOpt := none } = .ok rec ∧
       rec.memberShare = 0) ∧
    getWages (some lpEx)
        ([] ++ { staffs := [], kg := 7, date := "2026-10-05".toList,
                 labourType := "labour recycling".toList,
                 amount := 700, memberShare := 0 } :: []) =
      getWages (some lpEx) ([] ++ []) :=
  ⟨claim_C6_zero_staff_safety.1 lpEx _ rfl (Or.inl rfl),
   claim_C6_zero_staff_safety.2 lpEx [] [] _ rfl⟩

/-- C7: when pricing is required and no price document exists, the operation
fails with the not-found error: `create_labour_record` with amount or member
share unset and `get_wages` both return it; aggregation over an empty record
set (with the price table present where required) returns an empty or
all-zero result, never an error. -/
theorem claim_C7_configuration_missing :
    (∀ req : LabourRequest,
       (req.amountOpt = none ∨ req.memberShareOpt = none) →
       createLabourRecord none req = .error "Labour prices not found") ∧
    (∀ records : List LabourRecord,
       getWages none records = .error "Labour prices not found") ∧
    (∀ lp : LabourPrices, getWages (some lp) [] = .ok []) ∧
    (∀ (roster : List StaffDoc) (f l : Str),
       ∀ row ∈ getMonthlyWages [] roster f l,
         row.totalWage = 0 ∧ row.breakdown = []) := by
  refine ⟨?_, fun _ => rfl, fun _ => rfl, ?_⟩
  · intro req hunset
    have hcond : ¬ (req.amountOpt.isSome ∧ req.memberShareOpt.isSome) := by
      rcases hunset with h | h <;> simp [h]
    simp [createLabourRecord, hcond]
  · intro roster f l row hrow
    simp only [getMonthlyWages, accumulateWages, List.filter_nil, List.foldl_nil,
      List.mem_filterMap, Option.map_eq_some'] at hrow
    obtain ⟨st, -, sid, -, hrow⟩ := hrow
    simp [findData] at hrow
    rw [← hrow]
    exact ⟨rfl, rfl⟩

/-- Witness for C7 at concrete inputs. -/
theorem claim_C7_witness :
    createLabourRecord none reqEx = .error "Labour prices not found" ∧
    getWages none [] = .error "Labour prices not found" ∧
    getWages (some lpEx) [] = .ok [] ∧
    ({ id := "A".toList, name := "Alice".toList, totalWage := 0,
       breakdown := [] } : StaffWageSummary).totalWage = 0 ∧
    ({ id := "A".toList, name := "Alice".toList, totalWage := 0,
       breakdown := [] } : StaffWageSummary).breakdown = [] :=
  ⟨claim_C7_configuration_missing.1 reqEx (Or.inl rfl),
   claim_C7_configuration_missing.2.1 [],
   claim_C7_configuration_missing.2.2.1 lpEx,
   (claim_C7_configuration_missing.2.2.2 [staffA] "2026-10-01".toList
     "2026-10-31".toList _ (by decide)).1,
   (claim_C7_configuration_missing.2.2.2 [staffA] "2026-10-01".toList
     "2026-10-31".toList _ (by decide)).2⟩

/-- C8: a created invoice always has status "in progress", whatever status
the client supplied. -/
theorem claim_C8_invoice_initial_status (inv : Invoice) :
    (createInvoice inv).status = "in progress".toList := rfl

/-- C9: when the client supplies both amount and member share explicitly,
they are stored unchanged, with no price lookup, no validation of the
allocation invariants, and no error even without a price document. -/
theorem claim_C9_explicit_values_stored (priceDoc : Option LabourPrices)
    (req : LabourRequest) (a m : ℚ)
    (ha : req.amountOpt = some a) (hm : req.memberShareOpt = some m) :
    createLabourRecord priceDoc req =
      .ok { staffs := req.staffs, kg := req.kg, date := req.date,
            labourType := req.labourType, amount := a, memberShare := m } := by
  simp [createLabourRecord, ha, hm]

/-- Witness for C9: values that violate both allocation invariants are stored
unchanged even with no price document present. -/
theorem claim_C9_witness :
    createLabourRecord none
        { staffs := [staffA, staffB], kg := 10, date := "2026-10-05".toList,
          labourType := "labour recycling".toList,
          amountOpt := some 999, memberShareOpt := some 1 } =
      .ok { staffs := [staffA, staffB], kg := 10, date := "2026-10-05".toList,
            labourType := "labour recycling".toList, amount := 999,
            memberShare := 1 } :=
  claim_C9_explicit_values_stored none _ 999 1 rfl rfl

/-- C10: `get_monthly_wages` output is exactly the roster: one row per roster
staff document with a usable id, in roster order; a roster staff whose id has
no accumulated wages gets totalWage 0 and empty breakdown; wages accumulated
for an id absent from the roster are dropped from the output. -/
theorem claim_C10_roster_completeness (records : List LabourRecord)
    (roster : List StaffDoc) (f l : Str) :
    ((getMonthlyWages records roster f l).map StaffWageSummary.id
        = roster.filterMap staffKey) ∧
    (∀ st ∈ roster, ∀ sid, staffKey st = some sid →
       findData (accumulateWages records f l) sid = none →
       ({ id := sid, name := st.name, totalWage := 0,
          breakdown := [] } : StaffWageSummary) ∈
         getMonthlyWages records roster f l) ∧
    (∀ sid : Str, sid ∉ roster.filterMap staffKey →
       ∀ row ∈ getMonthlyWages records roster f l, row.id ≠ sid) := by
  have hmap : (getMonthlyWages records roster f l).map StaffWageSummary.id
      = roster.filterMap staffKey := by
    simp only [getMonthlyWages, List.map_filterMap]
    have hpt : ∀ st : StaffDoc,
        (((staffKey st).map fun sid =>
            match findData (accumulateWages records f l) sid with
            | some wd =>
                ({ id := sid, name := st.name, totalWage := wd.totalWage,
                   breakdown := wd.breakdown } : StaffWageSummary)
            | none =>
                { id := sid, name := st.name, totalWage := 0,
                  breakdown := [] }).map StaffWageSummary.id)
          = staffKey st := by
      intro st
      cases hk : staffKey st with
      | none => rfl
      | some sid =>
        simp only [Option.map_some']
        cases findData (accumulateWages records f l) sid <;> rfl
    simp only [hpt]
  refine ⟨hmap, ?_, ?_⟩
  · intro st hst sid hkey hnone
    simp only [getMonthlyWages, List.mem_filterMap]
    exact ⟨st, hst, by rw [hkey]; simp [hnone]⟩
  · intro sid hsid row hrow heq
    apply hsid
    rw [← hmap]
    exact heq ▸ List.mem_map_of_mem StaffWageSummary.id hrow

/-- Witness for C10 at a concrete roster and record set. -/
theorem claim_C10_witness :
    ((getMonthlyWages [] [staffA, staffB] "2026-10-01".toList
        "2026-10-31".toList).map StaffWageSummary.id
      = [staffA, staffB].filterMap staffKey) ∧
    ({ id := "A".toList, name := "Alice".toList, totalWage := 0,
       breakdown := [] } : StaffWageSummary) ∈
      getMonthlyWages [] [staffA, staffB] "2026-10-01".toList
        "2026-10-31".toList :=
  ⟨(claim_C10_roster_completeness [] [staffA, staffB] _ _).1,
   (claim_C10_roster_completeness [] [staffA, staffB] "2026-10-01".toList
       "2026-10-31".toList).2.1 staffA (by decide) "A".toList (by decide)
     (by decide)⟩

/-! ### Claims about the statistics aggregator -/

/-- C5: the monthly kg series, the monthly sales series and the recycler
comparison always emit exactly the 12 calendar-month labels Jan..Dec, and a
month with no matching data gets value 0, for every input collection. -/
theorem claim_C5_month_completeness :
    (∀ (year : Str) (invoices : List Invoice),
       (monthlyKg year invoices).1 = monthLabels ∧
       (monthlyKg year invoices).2.length = 12) ∧
    (∀ (year : Str) (sales : List Sale),
       (monthlySales year sales).1 = monthLabels ∧
       (monthlySales year sales).2.length = 12) ∧
    (∀ invoices : List Invoice,
       (recyclerComparison invoices).1 = monthLabels ∧
       (recyclerComparison invoices).2.1.length = 12 ∧
       (recyclerComparison invoices).2.2.length = 12) ∧
    monthLabels = ["Jan", "Feb", "Mar", "Apr", "May", "Jun", "Jul", "Aug",
      "Sep", "Oct", "Nov", "Dec"].map String.toList ∧
    (∀ (year : Str) (invoices : List Invoice) (k : ℕ) (m : Str),
       monthKeys[k]? = some m →
       (∀ i ∈ invoices, inYear year i.date = true → monthOf i.date ≠ m) →
       (monthlyKg year invoices).2[k]? = some 0) ∧
    (∀ (year : Str) (sales : List Sale) (k : ℕ) (m : Str),
       monthKeys[k]? = some m →
       (∀ s ∈ sales, inYear year s.date = true → monthOf s.date ≠ m) →
       (monthlySales year sales).2[k]? = some 0) ∧
    (∀ (invoices : List Invoice) (k : ℕ) (m : Str),
       monthKeys[k]? = some m →
       (∀ i ∈ invoices,
          (i.recycler = some aLit ∨ i.recycler = some bLit) →
          monthOf i.date ≠ m) →
       (recyclerComparison invoices).2.1[k]? = some 0 ∧
       (recyclerComparison invoices).2.2[k]? = some 0) := by
  refine ⟨fun year invoices => ⟨rfl, by simp [monthlyKg, monthKeys]⟩,
    fun year sales => ⟨rfl, by simp [monthlySales, monthKeys]⟩,
    fun invoices => ⟨rfl, by simp [recyclerComparison, monthKeys],
      by simp [recyclerComparison, monthKeys]⟩,
    by decide, ?_, ?_, ?_⟩
  · intro year invoices k m hk habsent
    simp only [monthlyKg, List.getElem?_map, hk, Option.map_some']
    have hnil : invoices.filter
        (fun i => inYear year i.date && decide (monthOf i.date = m)) = [] := by
      rw [List.filter_eq_nil_iff]
      intro i hi
      simp only [Bool.and_eq_true, decide_eq_true_eq, not_and]
      exact fun hy => habsent i hi hy
    rw [hnil]
    rfl
  · intro year sales k m hk habsent
    simp only [monthlySales, List.getElem?_map, hk, Option.map_some']
    have hnil : sales.filter
        (fun s => inYear year s.date && decide (monthOf s.date = m)) = [] := by
      rw [List.filter_eq_nil_iff]
      intro s hs
      simp only [Bool.and_eq_true, decide_eq_true_eq, not_and]
      exact fun hy => habsent s hs hy
    rw [hnil]
    rfl
  · intro invoices k m hk habsent
    have hmem : ∀ i ∈ invoices.filter (fun i =>
        decide (i.recycler = some aLit) || decide (i.recycler = some bLit)),
        monthOf i.date ≠ m := by
      intro i hi
      rw [List.mem_filter] at hi
      refine habsent i hi.1 ?_
      rcases Bool.or_eq_true _ _ |>.mp hi.2 with h | h
      · exact Or.inl (of_decide_eq_true h)
      · exact Or.inr (of_decide_eq_true h)
    constructor
    · simp only [recyclerComparison, List.getElem?_map, hk, Option.map_some']
      have hnil : (invoices.filter (fun i =>
          decide (i.recycler = some aLit) || decide (i.recycler = some bLit))).filter
          (fun i => decide (monthOf i.date = m) &&
            decide (i.recycler.map lowerStr = some aLit)) = [] := by
        rw [List.filter_eq_nil_iff]
        intro i hi
        simp only [Bool.and_eq_true, decide_eq_true_eq, not_and]
        exact fun hm' => absurd hm' (hmem i hi)
      rw [hnil]
      rfl
    · simp only [recyclerComparison, List.getElem?_map, hk, Option.map_some']
      have hnil : (invoices.filter (fun i =>
          decide (i.recycler = some aLit) || decide (i.recycler = some bLit))).filter
          (fun i => decide (monthOf i.date = m) &&
            decide (i.recycler.map lowerStr ≠ some aLit) &&
            decide (i.recycler.map lowerStr = some bLit)) = [] := by
        rw [List.filter_eq_nil_iff]
        intro i hi
        simp only [Bool.and_eq_true, decide_eq_true_eq, not_and]
        intro hand
        exact absurd hand.1 (hmem i hi)
      rw [hnil]
      rfl

/-- Witness for C5 on a sparse concrete input: a single off-year invoice
leaves every month of the kg series at 0 while all 12 labels are present. -/
theorem claim_C5_witness :
    (monthlyKg "2026".toList []).1 = monthLabels ∧
    (monthlyKg "2026".toList []).2.length = 12 ∧
    (monthlyKg "2026".toList []).2[0]? = some 0 := by
  obtain ⟨h1, -, -, -, h5, -, -⟩ := claim_C5_month_completeness
  exact ⟨(h1 _ []).1, (h1 _ []).2,
    h5 "2026".toList [] 0 "01".toList (by decide) (by intro i hi; cases hi)⟩

/-- An invoice whose recycler tag is upper-case "A". -/
def invUpperA : Invoice :=
  { customerName := [], productType := [], processType := [],
    kgIn := 5, kgOut := 0, amount := 0, status := completedStr,
    recycler := some ("A".toList), date := "2024-01-15".toList }

/-- C3 counterexample: an invoice with recycler "A" (upper case) and kgIn 5
in January contributes to neither series — the `$match` stage is
case-sensitive, so "A" is not included, refuting the claimed
case-insensitive inclusion. -/
theorem claim_C3_counterexample :
    invUpperA.recycler = some ("A".toList) ∧
    lowerStr "A".toList = aLit ∧
    invUpperA.kgIn ≠ 0 ∧
    (recyclerComparison [invUpperA]).2.1 = List.replicate 12 (0 : ℚ) ∧
    (recyclerComparison [invUpperA]).2.2 = List.replicate 12 (0 : ℚ) := by
  refine ⟨rfl, by decide, by decide, ?_, ?_⟩ <;> rfl

/-- Composition of the match stage and the recyclerA pivot condition:
only an invoice with recycler exactly "a" is counted. -/
theorem pivotA (o : Option Str) (b : Bool) :
    ((b && decide (o.map lowerStr = some aLit)) &&
      (decide (o = some aLit) || decide (o = some bLit)))
    = (decide (o = some aLit) && b) := by
  by_cases h1 : o = some aLit
  · have hl : lowerStr aLit = aLit := by decide
    simp [h1, hl, Option.map_some', Bool.and_comm]
  · by_cases h2 : o = some bLit
    · have hl : lowerStr bLit = bLit := by decide
      have hne : bLit ≠ aLit := by decide
      simp [h1, h2, hl, hne, Option.map_some']
    · simp [h1, h2]

/-- Composition of the match stage and the recyclerB pivot condition:
only an invoice with recycler exactly "b" is counted. -/
theorem pivotB (o : Option Str) (b : Bool) :
    ((b && decide (o.map lowerStr ≠ some aLit) &&
        decide (o.map lowerStr = some bLit)) &&
      (decide (o = some aLit) || decide (o = some bLit)))
    = (decide (o = some bLit) && b) := by
  by_cases h1 : o = some aLit
  · have hl : lowerStr aLit = aLit := by decide
    have hne : aLit ≠ bLit := by decide
    simp [h1, hl, hne, Option.map_some']
  · by_cases h2 : o = some bLit
    · have hl : lowerStr bLit = bLit := by decide
      have hne : bLit ≠ aLit := by decide
      simp [h1, h2, hl, hne, Option.map_some', Bool.and_comm]
    · simp [h1, h2]

/-- C3 amended: the comparison includes exactly the invoices whose recycler
is exactly "a" or exactly "b" (case-sensitive — "A"/"B" are excluded by the
match stage even though the pivot lower-cases), sums kgIn per calendar month
into the corresponding series, and applies no year (or status) restriction. -/
theorem claim_C3_amended (invoices : List Invoice) :
    (recyclerComparison invoices).2.1
      = (monthKeys.map fun m =>
          ((invoices.filter fun i =>
              decide (i.recycler = some aLit) &&
              decide (monthOf i.date = m)).map Invoice.kgIn).sum) ∧
    (recyclerComparison invoices).2.2
      = (monthKeys.map fun m =>
          ((invoices.filter fun i =>
              decide (i.recycler = some bLit) &&
              decide (monthOf i.date = m)).map Invoice.kgIn).sum) := by
  constructor
  · simp only [recyclerComparison]
    refine congrArg (fun f => List.map f monthKeys) (funext fun m => ?_)
    rw [List.filter_filter]
    refine congrArg (fun l => (List.map Invoice.kgIn l).sum)
      (List.filter_congr fun i _ => ?_)
    exact pivotA i.recycler (decide (monthOf i.date = m))
  · simp only [recyclerComparison]
    refine congrArg (fun f => List.map f monthKeys) (funext fun m => ?_)
    rw [List.filter_filter]
    refine congrArg (fun l => (List.map Invoice.kgIn l).sum)
      (List.filter_congr fun i _ => ?_)
    exact pivotB i.recycler (decide (monthOf i.date = m))

/-! ### Order facts about `strLeB`, used by the process-type canonicalizer -/

theorem strLeB_total : ∀ a b : Str, strLeB a b = true ∨ strLeB b a = true := by
  intro a
  induction a with
  | nil => intro b; left; rfl
  | cons x xs ih =>
    intro b
    cases b with
    | nil => right; rfl
    | cons y ys =>
      by_cases hxy : x < y
      · left; simp [strLeB, hxy]
      · by_cases hyx : y < x
        · right; simp [strLeB, hyx]
        · rcases ih ys with h | h
          · left; simp [strLeB, hxy, hyx, h]
          · right; simp [strLeB, hxy, hyx, h]

theorem strLeB_trans : ∀ a b c : Str,
    strLeB a b = true → strLeB b c = true → strLeB a c = true := by
  intro a
  induction a with
  | nil => intro b c _ _; rfl
  | cons x xs ih =>
    intro b c hab hbc
    cases b with
    | nil => exact absurd hab (by simp [strLeB])
    | cons y ys =>
      cases c with
      | nil => exact absurd hbc (by simp [strLeB])
      | cons z zs =>
        rcases lt_trichotomy x y with hxy | hxy | hxy
        · rcases lt_trichotomy y z with hyz | hyz | hyz
          · simp [strLeB, lt_trans hxy hyz]
          · subst hyz; simp [strLeB, hxy]
          · rw [strLeB, if_neg (asymm hyz), if_pos hyz] at hbc
            exact absurd hbc (by simp)
        · subst hxy
          rcases lt_trichotomy x z with hxz | hxz | hxz
          · simp [strLeB, hxz]
          · subst hxz
            rw [strLeB, if_neg (lt_irrefl x), if_neg (lt_irrefl x)] at hab hbc ⊢
            exact ih ys zs hab hbc
          · rw [strLeB, if_neg (asymm hxz), if_pos hxz] at hbc
            exact absurd hbc (by simp)
        · rw [strLeB, if_neg (asymm hxy), if_pos hxy] at hab
          exact absurd hab (by simp)

theorem strLeB_antisymm : ∀ a b : Str,
    strLeB a b = true → strLeB b a = true → a = b := by
  intro a
  induction a with
  | nil =>
    intro b hab hba
    cases b with
    | nil => rfl
    | cons y ys => exact absurd hba (by simp [strLeB])
  | cons x xs ih =>
    intro b hab hba
    cases b with
    | nil => exact absurd hab (by simp [strLeB])
    | cons y ys =>
      rcases lt_trichotomy x y with h | h | h
      · rw [strLeB, if_neg (asymm h), if_pos h] at hba
        exact absurd hba (by simp)
      · subst h
        rw [strLeB, if_neg (lt_irrefl x), if_neg (lt_irrefl x)] at hab hba
        rw [ih ys hab hba]
      · rw [strLeB, if_neg (asymm h), if_pos h] at hab
        exact absurd hab (by simp)

instance : IsTotal Str fun a b => strLeB a b = true := ⟨strLeB_total⟩

instance : IsTrans Str fun a b => strLeB a b = true := ⟨strLeB_trans⟩

instance : IsAntisymm Str fun a b => strLeB a b = true := ⟨strLeB_antisymm⟩

/-- The sorted deduplication underlying the canonical process-type key is
invariant under permutation of the input codes. -/
theorem sortDedup_perm {l l' : List Str} (h : List.Perm l l') :
    sortDedup l = sortDedup l' :=
  List.eq_of_perm_of_sorted
    ((List.perm_insertionSort _ _).trans
      (h.dedup.trans (List.perm_insertionSort _ _).symm))
    (List.sorted_insertionSort _ _) (List.sorted_insertionSort _ _)

/-- C4: the process-type count is invariant under permutation of each
invoice's processType list (the canonical label of a permuted list is
identical), and the output is always exactly the 7 labels
R, C, B, R-C, R-B, C-B, R-C-B in that fixed order, with count 0 where no
completed invoice matches. -/
theorem claim_C4_process_type_counts :
    (∀ pt pt' : List Str, List.Perm pt pt' → canonKey pt = canonKey pt') ∧
    (∀ invoices : List Invoice,
       (processTypeCounts invoices).1 = fixedLabels ∧
       fixedLabels = ["R", "C", "B", "R-C", "R-B", "C-B", "R-C-B"].map
         String.toList ∧
       (processTypeCounts invoices).2.length = 7) ∧
    (∀ (invoices : List Invoice) (k : ℕ) (lab : Str),
       fixedLabels[k]? = some lab →
       (∀ i ∈ invoices, i.status = completedStr →
          remapKey (canonKey i.processType) ≠ lab) →
       (processTypeCounts invoices).2[k]? = some 0) := by
  refine ⟨fun pt pt' h => congrArg reduceDash (sortDedup_perm h),
    fun invoices => ⟨rfl, by decide, by simp [processTypeCounts, fixedLabels]⟩,
    ?_⟩
  intro invoices k lab hk habsent
  simp only [processTypeCounts, List.getElem?_map, hk, Option.map_some']
  have hnil : (invoices.filter fun i => decide (i.status = completedStr)).filter
      (fun i => decide (remapKey (canonKey i.processType) = lab)) = [] := by
    rw [List.filter_eq_nil_iff]
    intro i hi
    rw [List.mem_filter] at hi
    simp only [decide_eq_true_eq]
    exact habsent i hi.1 (of_decide_eq_true hi.2)
  rw [hnil]
  rfl

/-- Witness for C4: the permuted lists ["C","R"] and ["R","C"] share the
canonical label, which remaps to "R-C", and on the spec's example every
month... both orderings are counted under the same fixed label. -/
theorem claim_C4_witness :
    canonKey ["C".toList, "R".toList] = canonKey ["R".toList, "C".toList] ∧
    remapKey (canonKey ["C".toList, "R".toList]) = "R-C".toList ∧
    (processTypeCounts []).2[3]? = some 0 :=
  ⟨claim_C4_process_type_counts.1 _ _ (by decide),
   by decide,
   claim_C4_process_type_counts.2.2 [] 3 "R-C".toList (by decide)
     (fun i hi => absurd hi (List.not_mem_nil i))⟩

/-- A price table in which every labour type has a distinct rate. -/
def lpC2 : LabourPrices :=
  { recycling := 1, blending := 2, crushingWaste := 3, crushingSack := 4 }

/-- A labour type containing both "blending" and "crushing waste". -/
def conflictType : Str := "blending crushing waste".toList

/-- C2 counterexample: the allocator tests "blending" second while the wage
aggregator tests it last, so on "blending crushing waste" the allocator
selects the blending rate and `get_wages` the crushing-waste rate — the two
operations do not select the same rate for every labourType string. -/
theorem claim_C2_counterexample :
    ratePerKgCreate lpC2 conflictType = 2 ∧
    (wagesClassify lpC2 conflictType).1 = 3 ∧
    ratePerKgCreate lpC2 conflictType ≠ (wagesClassify lpC2 conflictType).1 := by
  refine ⟨?_, ?_, ?_⟩ <;> decide

/-- Substring search is blind to stripping for a needle given in explicit
head/middle/last form with non-whitespace ends. -/
theorem hasSub_pyStrip_needle (n : Str) (c d : Char) (mid : Str)
    (hn : n = c :: (mid ++ [d])) (hc : wsChar c = false)
    (hd : wsChar d = false) (l : Str) :
    hasSub n (pyStrip l) = hasSub n l := by
  subst hn
  exact hasSub_pyStrip hc hd mid l

/-- C2 amended: `get_wages` lower-cases (and strips) the labour type but
tests the substrings in the order recycling, crushing waste, crushing sack,
blending — blending last, unlike the allocator's recycling, blending,
crushing waste, crushing sack.  The two operations select the same rate for
every labourType except those whose lower-cased form contains "blending"
together with "crushing waste" or "crushing sack" but not "recycling". -/
theorem claim_C2_amended (lp : LabourPrices) (t : Str)
    (h : ¬ (hasSub blendingN (lowerStr t) = true ∧
            (hasSub crushingWasteN (lowerStr t) = true ∨
             hasSub crushingSackN (lowerStr t) = true) ∧
            hasSub recyclingN (lowerStr t) = false)) :
    (wagesClassify lp t).1 = ratePerKgCreate lp t := by
  have er := hasSub_pyStrip_needle recyclingN 'r' 'g' "ecyclin".toList
    (by decide) (by decide) (by decide) (lowerStr t)
  have eb := hasSub_pyStrip_needle blendingN 'b' 'g' "lendin".toList
    (by decide) (by decide) (by decide) (lowerStr t)
  have ew := hasSub_pyStrip_needle crushingWasteN 'c' 'e' "rushing wast".toList
    (by decide) (by decide) (by decide) (lowerStr t)
  have es := hasSub_pyStrip_needle crushingSackN 'c' 'k' "rushing sac".toList
    (by decide) (by decide) (by decide) (lowerStr t)
  simp only [wagesClassify, ratePerKgCreate]
  rw [← pyStrip_lowerStr, er, eb, ew, es]
  by_cases hr : hasSub recyclingN (lowerStr t) = true
  · simp [hr]
  · by_cases hb : hasSub blendingN (lowerStr t) = true
    · have hr' : hasSub recyclingN (lowerStr t) = false := by
        simpa using hr
      have hcw : hasSub crushingWasteN (lowerStr t) = false := by
        by_contra hx
        exact h ⟨hb, Or.inl (by simpa using hx), hr'⟩
      have hcs : hasSub crushingSackN (lowerStr t) = false := by
        by_contra hx
        exact h ⟨hb, Or.inr (by simpa using hx), hr'⟩
      simp [hr, hb, hcw, hcs]
    · by_cases hcw : hasSub crushingWasteN (lowerStr t) = true
      · simp [hr, hb, hcw]
      · by_cases hcs : hasSub crushingSackN (lowerStr t) = true
        · simp [hr, hb, hcw, hcs]
        · simp [hr, hb, hcw, hcs]

/-- Witness for the amended C2 on a conflict-free labour type. -/
theorem claim_C2_amended_witness :
    (wagesClassify lpEx "labour crushing waste".toList).1
      = ratePerKgCreate lpEx "labour crushing waste".toList :=
  claim_C2_amended lpEx _ (by decide)

end Downtown
